import Mathlib

/-!
Shallow embedding of the Hearts rules engine (src/models/card.rs, deck.rs,
player.rs, controller.rs, game.rs) and verification of its specification.

Modelling conventions:
- Rust u8 arithmetic is modelled as Nat with an explicit wrap (% 256) where the
  source performs u8 addition (Player::add_score).
- The randomness of Deck::shuffle is modelled by quantifying over an arbitrary
  permutation of the freshly constructed deck.
- Player reference/value identity in HeartsPlayedState::HeartsPlayedOne is
  modelled by the player's index (Fin 4) in the game's player vector.
- Fallible collaborator (Controller) calls are modelled as Option-valued
  inputs; an aborted computation returns its mutated-so-far state together
  with a success flag, mirroring how the Rust Game keeps its players field
  after an early return with an error.
-/

namespace Hearts

/-- Card ranks in ascending order, as declared in src/models/card.rs. -/
inductive Rank
  | Two | Three | Four | Five | Six | Seven | Eight | Nine | Ten
  | Jack | Queen | King | Ace
  deriving DecidableEq

/-- Position of a rank in the declaration order; carrier of the derived
rank-only order on cards (Card derives Ord ignoring the suit field). -/
def Rank.val : Rank → Nat
  | .Two => 0
  | .Three => 1
  | .Four => 2
  | .Five => 3
  | .Six => 4
  | .Seven => 5
  | .Eight => 6
  | .Nine => 7
  | .Ten => 8
  | .Jack => 9
  | .Queen => 10
  | .King => 11
  | .Ace => 12

/-- Card suits, in the declaration order of src/models/card.rs. -/
inductive Suit
  | Hearts | Clubs | Diamonds | Spades
  deriving DecidableEq

/-- A playing card: a rank and a suit (src/models/card.rs). -/
structure Card where
  rank : Rank
  suit : Suit
  deriving DecidableEq

/-- Point value of a card (Card::score): Queen of Spades 13, any heart 1,
otherwise 0; the match arms are tried in source order. -/
def Card.score (c : Card) : Nat :=
  match c.rank, c.suit with
  | Rank.Queen, Suit.Spades => 13
  | _, Suit.Hearts => 1
  | _, _ => 0

/-- Card::is_two_of_clubs. -/
def Card.is_two_of_clubs (c : Card) : Bool :=
  c.rank == Rank.Two && c.suit == Suit.Clubs

/-- Card::is_hearts. -/
def Card.is_hearts (c : Card) : Bool :=
  c.suit == Suit.Hearts

/-- The thirteen ranks in iteration order (strum EnumIter). -/
def allRanks : List Rank :=
  [.Two, .Three, .Four, .Five, .Six, .Seven, .Eight, .Nine, .Ten,
   .Jack, .Queen, .King, .Ace]

/-- The four suits in iteration order (strum EnumIter). -/
def allSuits : List Suit :=
  [.Hearts, .Clubs, .Diamonds, .Spades]

/-- Deck::new — the cartesian product Rank × Suit, ranks outer, suits inner,
exactly the order produced by iter_tools::cartesian_product. -/
def Deck.new : List Card :=
  allRanks.flatMap fun r => allSuits.map fun s => Card.mk r s

/-- A player: name, mutable hand, accumulated score (src/models/player.rs).
The u8 score is a Nat kept below 256 by add_score's wrap. -/
structure Player where
  name : String
  hand : List Card
  score : Nat
  deriving DecidableEq

/-- Player::add_score — u8 addition, hence the explicit wrap at 256. -/
def Player.add_score (p : Player) (delta : Nat) : Player :=
  { p with score := (p.score + delta) % 256 }

/-- Player::has_two_of_clubs. -/
def Player.has_two_of_clubs (p : Player) : Bool :=
  p.hand.any fun card => card.is_two_of_clubs

/-- Player::pass — partitions the hand by membership in the choices, keeps the
non-matching part and returns the matching part to the caller. -/
def Player.pass (p : Player) (choices : List Card) : List Card × Player :=
  let parts := p.hand.partition fun card => choices.contains card
  (parts.1, { p with hand := parts.2 })

/-- Player::take — appends the given cards to the hand. -/
def Player.take (p : Player) (cards : List Card) : Player :=
  { p with hand := p.hand ++ cards }

/-- One dealt block of Deck::deal: the slice cards[i*13 .. (i+1)*13] of the
shuffled deck. -/
def dealSlice (shuffled : List Card) (i : Fin 4) : List Card :=
  (shuffled.drop (i.val * 13)).take 13

/-- Deck::deal after the shuffle: player i takes slice i. The shuffle itself
is modelled by the caller choosing an arbitrary permutation of Deck.new. -/
def Deck.deal (shuffled : List Card) (players : Fin 4 → Player) : Fin 4 → Player :=
  fun i => (players i).take (dealSlice shuffled i)

/-- HeartsPlayedState from src/models/game.rs; the player reference in
HeartsPlayedOne is modelled by the player's index. -/
inductive HeartsPlayedState
  | noHeartsPlayed
  | heartsPlayedOne (p : Fin 4)
  | heartsPlayedMany
  deriving DecidableEq

/-- PassingOrder from src/models/game.rs. -/
inductive PassingOrder
  | Right | Across | Left | Hold
  deriving DecidableEq

/-- Game::passing_indices — the four (giver, receiver) pairs of each rotation;
Hold yields none. -/
def passing_indices : PassingOrder → Option (List (Fin 4 × Fin 4))
  | .Right => some [(0, 1), (1, 2), (2, 3), (3, 0)]
  | .Across => some [(0, 2), (1, 3), (2, 0), (3, 1)]
  | .Left => some [(0, 3), (1, 0), (2, 1), (3, 2)]
  | .Hold => none

/-- The itertools sorted() call applied to card lists: a stable sort under the
derived rank-only order of Card. -/
def sortCards (l : List Card) : List Card :=
  List.insertionSort (fun a b => a.rank.val ≤ b.rank.val) l

/-- The filtered option list of CLIController::get_card_to_place: three
filters in source order (first-move, follow-led-suit, no-hearts-while-
unbroken), then sorted. -/
def filtered_card_options (hand : List Card) (table : List (Nat × Card))
    (is_first_move : Bool) (hps : HeartsPlayedState) : List Card :=
  sortCards
    (((hand.filter fun card => !is_first_move || card.is_two_of_clubs).filter
        fun card =>
          match table.head? with
          | some (_, first_card) => card.suit == first_card.suit
          | none => true).filter
      fun card =>
        match hps with
        | HeartsPlayedState.noHeartsPlayed => !card.is_hearts
        | _ => true)

/-- The option list actually presented by CLIController::get_card_to_place:
the filtered list, or the whole (sorted) hand when the filters eliminated
everything. -/
def card_options (hand : List Card) (table : List (Nat × Card))
    (is_first_move : Bool) (hps : HeartsPlayedState) : List Card :=
  let filtered := filtered_card_options hand table is_first_move hps
  if filtered.isEmpty then sortCards hand else filtered

/-- Iterator::max_by_key keyed on the card (whose derived order is rank-only):
of several maxima the LAST is returned, hence later elements win ties. -/
def max_by_card_step (acc : Option (Nat × Card)) (p : Nat × Card) : Option (Nat × Card) :=
  match acc with
  | none => some p
  | some q => if q.2.rank.val ≤ p.2.rank.val then some p else some q

/-- The fold realising max_by_key over the table entries. -/
def max_by_card (l : List (Nat × Card)) : Option (Nat × Card) :=
  l.foldl max_by_card_step none

/-- Winner determination of Game::turn: filter the table to the entries whose
suit equals the suit of the first card played, take the max by card. -/
def winner_of (table : List (Nat × Card)) : Option (Nat × Card) :=
  match table.head? with
  | none => none
  | some first => max_by_card (table.filter fun p => p.2.suit == first.2.suit)

/-- HeartsPlayedState update after a trick (Game::round, the match on
hearts_played_state): only executed when a heart was played this trick. The
source guard player == &self.players[winner_index] compares PLAYER VALUES
(the derived PartialEq over name, hand and score — the derivative ignore
attributes apply only to PartialOrd/Ord), so the stored shooter index p and
the winner index are compared through the current player state. -/
def updateHeartsPlayedState (players : Fin 4 → Player) (hps : HeartsPlayedState)
    (hearts_played : Bool) (winner : Fin 4) : HeartsPlayedState :=
  if hearts_played then
    match hps with
    | .noHeartsPlayed => .heartsPlayedOne winner
    | .heartsPlayedOne p =>
        if players p = players winner then .heartsPlayedOne p else .heartsPlayedMany
    | .heartsPlayedMany => .heartsPlayedMany
  else hps

/-- Coarse rank of a HeartsPlayedState, to express monotonicity of the
transition relation. -/
def hpsRank : HeartsPlayedState → Nat
  | .noHeartsPlayed => 0
  | .heartsPlayedOne _ => 1
  | .heartsPlayedMany => 2

/-- The HeartsPlayedState reached after a list of tricks, each given as
(winner index, did the trick contain a heart), with the value comparisons
taken against the given player-state snapshot; the round begins at
NoHeartsPlayed (Game::round initialises the state before the trick loop). -/
def round_hearts_state (players : Fin 4 → Player)
    (tricks : List (Fin 4 × Bool)) : HeartsPlayedState :=
  tricks.foldl (fun s t => updateHeartsPlayedState players s t.2 t.1) .noHeartsPlayed

/-- The Score phase at the end of Game::round: with HeartsPlayedOne(p), the
guard player != hearts_player compares PLAYER VALUES (derived PartialEq over
name, hand and score), so every player whose value equals the stored
shooter's is untouched and everyone whose value differs gets 26; otherwise
every player adds their own per-round buffer entry. -/
def score_phase (hps : HeartsPlayedState) (scores : Fin 4 → Nat)
    (players : Fin 4 → Player) : Fin 4 → Player :=
  fun i =>
    match hps with
    | HeartsPlayedState.heartsPlayedOne p =>
        if players i = players p then players i else (players i).add_score 26
    | _ => (players i).add_score (scores i)

/-- The collection loop of Game::pass_cards: for each (giver, receiver) pair
query the collaborator (sel, keyed by giver, none = ControllerError); on
success the giver's hand is partitioned IMMEDIATELY via Player::pass and the
outgoing cards are queued; on failure the loop stops, returning the players
as mutated so far and the failure flag. -/
def collect_passes (sel : Fin 4 → Option (List Card)) :
    List (Fin 4 × Fin 4) → (Fin 4 → Player) → List (Fin 4 × List Card) →
    (Fin 4 → Player) × List (Fin 4 × List Card) × Bool
  | [], players, acc => (players, acc, true)
  | (a, b) :: rest, players, acc =>
    match sel a with
    | none => (players, acc, false)
    | some choices =>
      let passed := (players a).pass choices
      collect_passes sel rest (Function.update players a passed.2)
        (acc ++ [(b, passed.1)])

/-- The delivery loop of Game::pass_cards: each queued (receiver, cards) pair
is applied via Player::take. -/
def apply_passes : List (Fin 4 × List Card) → (Fin 4 → Player) → Fin 4 → Player
  | [], players => players
  | (i, cards) :: rest, players =>
      apply_passes rest (Function.update players i ((players i).take cards))

/-- Game::pass_cards: Hold is a no-op; otherwise collect (mutating givers as
it goes), and only if every collaborator call succeeded, deliver the queued
cards to the receivers. The Bool records success (Ok) versus PassError. -/
def pass_cards (sel : Fin 4 → Option (List Card)) (players : Fin 4 → Player)
    (order : PassingOrder) : (Fin 4 → Player) × Bool :=
  match passing_indices order with
  | none => (players, true)
  | some pairs =>
    match collect_passes sel pairs players [] with
    | (players1, collected, true) => (apply_passes collected players1, true)
    | (players1, _, false) => (players1, false)

end Hearts


namespace Hearts

/-! Helper lemmas shared by the claim theorems. -/

/-- Sorting the option list is a permutation and so preserves the presented
set of cards. -/
lemma sortCards_perm (l : List Card) : List.Perm (sortCards l) l :=
  List.perm_insertionSort _ l

/-- Characterisation of Card::is_two_of_clubs. -/
lemma is_two_of_clubs_iff (c : Card) :
    c.is_two_of_clubs = true ↔ c = Card.mk Rank.Two Suit.Clubs := by
  cases c with
  | mk r s =>
    simp [Card.is_two_of_clubs, Card.mk.injEq]

/-- Membership in the filtered option list of get_card_to_place, unfolding the
sorting permutation and the three filters. -/
lemma mem_filtered_card_options (hand : List Card) (table : List (Nat × Card))
    (is_first_move : Bool) (hps : HeartsPlayedState) (c : Card) :
    c ∈ filtered_card_options hand table is_first_move hps ↔
      c ∈ hand
        ∧ (!is_first_move || c.is_two_of_clubs) = true
        ∧ (match table.head? with
            | some (_, first_card) => c.suit == first_card.suit
            | none => true) = true
        ∧ (match hps with
            | HeartsPlayedState.noHeartsPlayed => !c.is_hearts
            | _ => true) = true := by
  unfold filtered_card_options
  rw [(sortCards_perm _).mem_iff]
  simp only [List.mem_filter, and_assoc]

end Hearts

namespace Hearts

/-- Fold invariant for max_by_card: starting from an occupied accumulator, the
fold yields an element of the list or the accumulator itself, of maximal rank
among all of them. -/
lemma foldl_max_by_card_step (l : List (Nat × Card)) :
    ∀ q : Nat × Card, ∃ w,
      l.foldl max_by_card_step (some q) = some w
        ∧ (w = q ∨ w ∈ l)
        ∧ q.2.rank.val ≤ w.2.rank.val
        ∧ ∀ p ∈ l, p.2.rank.val ≤ w.2.rank.val := by
  induction l with
  | nil =>
    intro q
    exact ⟨q, rfl, Or.inl rfl, le_refl _, by simp⟩
  | cons x xs ih =>
    intro q
    rw [List.foldl_cons]
    by_cases hle : q.2.rank.val ≤ x.2.rank.val
    · have hstep : max_by_card_step (some q) x = some x := by
        simp [max_by_card_step, hle]
      rw [hstep]
      obtain ⟨w, hw, hmem, hx, hall⟩ := ih x
      refine ⟨w, hw, ?_, le_trans hle hx, ?_⟩
      · rcases hmem with h | h
        · exact Or.inr (h ▸ List.mem_cons_self x xs)
        · exact Or.inr (List.mem_cons_of_mem x h)
      · intro p hp
        rcases List.mem_cons.mp hp with h | h
        · exact h ▸ hx
        · exact hall p h
    · have hstep : max_by_card_step (some q) x = some q := by
        simp [max_by_card_step, hle]
      rw [hstep]
      obtain ⟨w, hw, hmem, hq, hall⟩ := ih q
      refine ⟨w, hw, ?_, hq, ?_⟩
      · rcases hmem with h | h
        · exact Or.inl h
        · exact Or.inr (List.mem_cons_of_mem x h)
      · intro p hp
        rcases List.mem_cons.mp hp with h | h
        · exact h ▸ le_trans (le_of_lt (Nat.lt_of_not_le hle)) hq
        · exact hall p h

/-- max_by_card of a non-empty list returns a member of maximal rank. -/
lemma max_by_card_spec (x : Nat × Card) (xs : List (Nat × Card)) :
    ∃ w, max_by_card (x :: xs) = some w
      ∧ w ∈ x :: xs
      ∧ ∀ p ∈ x :: xs, p.2.rank.val ≤ w.2.rank.val := by
  obtain ⟨w, hw, hmem, hx, hall⟩ := foldl_max_by_card_step xs x
  refine ⟨w, ?_, ?_, ?_⟩
  · show (x :: xs).foldl max_by_card_step none = some w
    rw [List.foldl_cons]
    exact hw
  · rcases hmem with h | h
    · exact h ▸ List.mem_cons_self x xs
    · exact List.mem_cons_of_mem x h
  · intro p hp
    rcases List.mem_cons.mp hp with h | h
    · exact h ▸ hx
    · exact hall p h

end Hearts

namespace Hearts

/-- C2: for every completed trick table of 4 (player-index, card) pairs, the
declared winner is an entry of the table whose card is of the led suit (the
suit of the first card played) and whose rank is maximal among the led-suit
cards; in particular a card of another suit is never declared the winner. -/
theorem C2_trick_winner (table : List (Nat × Card)) (first : Nat × Card)
    (rest : List (Nat × Card)) (htable : table = first :: rest)
    (hlen : table.length = 4) :
    ∃ w, winner_of table = some w
      ∧ w ∈ table
      ∧ w.2.suit = first.2.suit
      ∧ ∀ p ∈ table, p.2.suit = first.2.suit → p.2.rank.val ≤ w.2.rank.val := by
  subst htable
  unfold winner_of
  simp only [List.head?_cons]
  have hfil : first ∈ (first :: rest).filter (fun p => p.2.suit == first.2.suit) := by
    simp [List.mem_filter]
  cases hf : (first :: rest).filter (fun p => p.2.suit == first.2.suit) with
  | nil =>
    rw [hf] at hfil
    cases hfil
  | cons y ys =>
    obtain ⟨w, hw, hwmem, hall⟩ := max_by_card_spec y ys
    have hwfil : w ∈ (first :: rest).filter (fun p => p.2.suit == first.2.suit) := by
      rw [hf]; exact hwmem
    refine ⟨w, hw, (List.mem_filter.mp hwfil).1, ?_, ?_⟩
    · exact eq_of_beq (List.mem_filter.mp hwfil).2
    · intro p hp hsuit
      have hpf : p ∈ (first :: rest).filter (fun q => q.2.suit == first.2.suit) :=
        List.mem_filter.mpr ⟨hp, by simp [hsuit]⟩
    -- transport membership through the computed filter list
      rw [hf] at hpf
      exact hall p hpf

/-- Witness for C2 at a concrete completed trick: clubs led, the Ace of
Hearts outranks everything but the Jack of Clubs wins. -/
theorem C2_witness :
    ([(0, Card.mk .Ten .Clubs), (1, Card.mk .Ace .Hearts),
      (2, Card.mk .Jack .Clubs), (3, Card.mk .Four .Clubs)] : List (Nat × Card)).length = 4
    ∧ ∃ w, winner_of [(0, Card.mk .Ten .Clubs), (1, Card.mk .Ace .Hearts),
          (2, Card.mk .Jack .Clubs), (3, Card.mk .Four .Clubs)] = some w
        ∧ w ∈ ([(0, Card.mk .Ten .Clubs), (1, Card.mk .Ace .Hearts),
            (2, Card.mk .Jack .Clubs), (3, Card.mk .Four .Clubs)] : List (Nat × Card))
        ∧ w.2.suit = (Card.mk .Ten .Clubs).suit
        ∧ ∀ p ∈ ([(0, Card.mk .Ten .Clubs), (1, Card.mk .Ace .Hearts),
            (2, Card.mk .Jack .Clubs), (3, Card.mk .Four .Clubs)] : List (Nat × Card)),
            p.2.suit = (Card.mk .Ten .Clubs).suit → p.2.rank.val ≤ w.2.rank.val :=
  ⟨by decide, C2_trick_winner _ _ _ rfl (by decide)⟩

/-- C10: for every non-empty trick table the winner determination succeeds:
the led-suit filter keeps at least the first entry, so the maximum exists and
the expect branch is unreachable. -/
theorem C10_winner_total (table : List (Nat × Card)) (h : table ≠ []) :
    (winner_of table).isSome = true := by
  match table, h with
  | first :: rest, _ =>
    unfold winner_of
    simp only [List.head?_cons]
    have hfil : first ∈ (first :: rest).filter (fun p => p.2.suit == first.2.suit) := by
      simp [List.mem_filter]
    cases hf : (first :: rest).filter (fun p => p.2.suit == first.2.suit) with
    | nil =>
      rw [hf] at hfil
      cases hfil
    | cons y ys =>
      obtain ⟨w, hw, _, _⟩ := max_by_card_spec y ys
      rw [hw]
      rfl

/-- Witness for C10 at a concrete one-entry table. -/
theorem C10_witness :
    (winner_of [(0, Card.mk .Two .Clubs)]).isSome = true :=
  C10_winner_total _ (by decide)

end Hearts

namespace Hearts

/-- C6: on the very first move of the very first trick (empty table,
first-move flag set), a player holding the Two of Clubs is presented exactly
the singleton choice set containing the Two of Clubs, whatever the
HeartsPlayedState. -/
theorem C6_first_move_only_two_of_clubs (hand : List Card)
    (hps : HeartsPlayedState) (hmem : Card.mk Rank.Two Suit.Clubs ∈ hand) :
    ∀ c : Card, c ∈ card_options hand [] true hps ↔ c = Card.mk Rank.Two Suit.Clubs := by
  have htwo : Card.mk Rank.Two Suit.Clubs ∈ filtered_card_options hand [] true hps := by
    rw [mem_filtered_card_options]
    refine ⟨hmem, by decide, by simp, ?_⟩
    cases hps <;> simp [Card.is_hearts]
  have hne : filtered_card_options hand [] true hps ≠ [] := by
    intro h
    rw [h] at htwo
    cases htwo
  have hopt : card_options hand [] true hps = filtered_card_options hand [] true hps := by
    unfold card_options
    simp [List.isEmpty_iff, hne]
  intro c
  rw [hopt]
  constructor
  · intro hc
    rw [mem_filtered_card_options] at hc
    exact (is_two_of_clubs_iff c).mp (by simpa using hc.2.1)
  · intro hc
    exact hc ▸ htwo

/-- Witness for C6 on a concrete three-card hand. -/
theorem C6_witness :
    Card.mk Rank.Two Suit.Clubs ∈
        [Card.mk .Five .Clubs, Card.mk .Two .Clubs, Card.mk .Three .Hearts]
    ∧ ∀ c : Card,
        c ∈ card_options [Card.mk .Five .Clubs, Card.mk .Two .Clubs, Card.mk .Three .Hearts]
            [] true .noHeartsPlayed
          ↔ c = Card.mk Rank.Two Suit.Clubs :=
  ⟨by decide, C6_first_move_only_two_of_clubs _ _ (by decide)⟩

/-- C7: whenever the combined legality filters eliminate every card of the
hand, get_card_to_place falls back to presenting the entire hand. -/
theorem C7_fallback_to_full_hand (hand : List Card) (table : List (Nat × Card))
    (is_first_move : Bool) (hps : HeartsPlayedState)
    (h : filtered_card_options hand table is_first_move hps = []) :
    List.Perm (card_options hand table is_first_move hps) hand := by
  unfold card_options
  rw [h]
  exact sortCards_perm hand

/-- Witness for C7: a hand of a single heart led into an unbroken round has
every card filtered away, and the whole hand comes back. -/
theorem C7_witness :
    filtered_card_options [Card.mk .Three .Hearts] [] false .noHeartsPlayed = []
    ∧ List.Perm (card_options [Card.mk .Three .Hearts] [] false .noHeartsPlayed)
        [Card.mk .Three .Hearts] :=
  ⟨by decide, C7_fallback_to_full_hand _ _ _ _ (by decide)⟩

/-- C8 counterexample: the guard compares PLAYER VALUES, not identities. In a
reachable state — get_names enforces no name uniqueness, all hands are empty
after trick 13's plays, and all persistent scores are 0 during round 1 — a
heart-bearing trick won by player index 1 while the state is
HeartsPlayedOne(player 0) KEEPS HeartsPlayedOne, where the claim requires a
transition to HeartsPlayedMany for a win by any other player. -/
theorem C8_counterexample :
    ((1 : Fin 4) ≠ (0 : Fin 4))
    ∧ updateHeartsPlayedState (fun _ => Player.mk "A" [] 0)
        (.heartsPlayedOne 0) true 1 = .heartsPlayedOne 0 := by
  decide

/-- C8 amended: the hearts-played state machine of Game::round, with the
shooter comparison read as the source's Player VALUE equality (derived
PartialEq over name, hand, score) — a heart-bearing trick moves
NoHeartsPlayed to HeartsPlayedOne(winner); HeartsPlayedOne(p) stays when the
winner's player value equals p's and becomes HeartsPlayedMany when it
differs (with pairwise-distinct player values, e.g. distinct names, this is
the original by-identity reading); HeartsPlayedMany is absorbing; no-heart
tricks leave the state unchanged; the coarse rank never decreases; and a
round starts at NoHeartsPlayed. -/
theorem C8_hearts_state_machine (players : Fin 4 → Player) :
    (∀ w : Fin 4,
        updateHeartsPlayedState players .noHeartsPlayed true w = .heartsPlayedOne w)
    ∧ (∀ p w : Fin 4, players p = players w →
        updateHeartsPlayedState players (.heartsPlayedOne p) true w = .heartsPlayedOne p)
    ∧ (∀ p w : Fin 4, players p ≠ players w →
        updateHeartsPlayedState players (.heartsPlayedOne p) true w = .heartsPlayedMany)
    ∧ (∀ (b : Bool) (w : Fin 4),
        updateHeartsPlayedState players .heartsPlayedMany b w = .heartsPlayedMany)
    ∧ (∀ (s : HeartsPlayedState) (w : Fin 4),
        updateHeartsPlayedState players s false w = s)
    ∧ (∀ (s : HeartsPlayedState) (b : Bool) (w : Fin 4),
        hpsRank s ≤ hpsRank (updateHeartsPlayedState players s b w))
    ∧ round_hearts_state players [] = .noHeartsPlayed := by
  refine ⟨?_, ?_, ?_, ?_, ?_, ?_, rfl⟩
  · intro w
    simp [updateHeartsPlayedState]
  · intro p w h
    simp [updateHeartsPlayedState, h]
  · intro p w h
    simp [updateHeartsPlayedState, h]
  · intro b w
    cases b <;> simp [updateHeartsPlayedState]
  · intro s w
    simp [updateHeartsPlayedState]
  · intro s b w
    cases b with
    | false => simp [updateHeartsPlayedState]
    | true =>
      cases s with
      | noHeartsPlayed => simp [updateHeartsPlayedState, hpsRank]
      | heartsPlayedMany => simp [updateHeartsPlayedState, hpsRank]
      | heartsPlayedOne p =>
        by_cases hpw : players p = players w <;>
          simp [updateHeartsPlayedState, hpsRank, hpw]

/-- Witness for the amended C8: with distinct names, a heart-bearing trick
won by player 1 while player 0 was the sole heart-taker moves the state to
HeartsPlayedMany. -/
theorem C8_witness :
    (fun i : Fin 4 => Player.mk (if i = 0 then "A" else "B") [] 0) 0
        ≠ (fun i : Fin 4 => Player.mk (if i = 0 then "A" else "B") [] 0) 1
    ∧ updateHeartsPlayedState (fun i => Player.mk (if i = 0 then "A" else "B") [] 0)
        (.heartsPlayedOne 0) true 1 = .heartsPlayedMany :=
  ⟨by decide,
    (C8_hearts_state_machine
        (fun i => Player.mk (if i = 0 then "A" else "B") [] 0)).2.2.1 0 1 (by decide)⟩

/-- C9 counterexample: add_score performs u8 addition, so a score of 250
plus a delta of 26 wraps to 20 — the accumulated score DECREASES, refuting
monotonicity over every current score value and every delta. -/
theorem C9_counterexample :
    ((Player.mk "" [] 250).add_score 26).score < (Player.mk "" [] 250).score := by
  decide

/-- C9 amended: whenever the u8 addition does not overflow (score + delta at
most 255 — true of every reachable game state, where scores stay below 126),
add_score is monotone: the new score is at least the old one. -/
theorem C9_add_score_monotone (p : Player) (delta : Nat)
    (h : p.score + delta < 256) :
    p.score ≤ (p.add_score delta).score := by
  unfold Player.add_score
  simp only [Nat.mod_eq_of_lt h]
  exact Nat.le_add_right _ _

/-- Witness for the amended C9 at a concrete in-range score. -/
theorem C9_witness :
    (Player.mk "" [] 90).score + 10 < 256
    ∧ (Player.mk "" [] 90).score ≤ ((Player.mk "" [] 90).add_score 10).score :=
  ⟨by decide, C9_add_score_monotone _ 10 (by decide)⟩

end Hearts

namespace Hearts

/-- C1 counterexample: the guard player != hearts_player compares PLAYER
VALUES, not identities. In a reachable state — duplicate names allowed by
get_names, all hands empty at the end of the round, all persistent scores 0
in round 1 — the non-shooter at index 1 compares equal to the shooter at
index 0, is skipped by the score loop, and gains 0 where the claim requires
exactly 26 for each of the other three players. -/
theorem C1_counterexample :
    ((1 : Fin 4) ≠ (0 : Fin 4))
    ∧ (score_phase (.heartsPlayedOne 0) (fun _ => 6)
          (fun _ => Player.mk "A" [] 0) 1).score
        = ((fun _ : Fin 4 => Player.mk "A" [] 0) 1).score
    ∧ (score_phase (.heartsPlayedOne 0) (fun _ => 6)
          (fun _ => Player.mk "A" [] 0) 1).score
        ≠ ((fun _ : Fin 4 => Player.mk "A" [] 0) 1).score + 26 := by
  decide

/-- C1 amended: at the Score phase, if the round ended in HeartsPlayedOne(p),
every player whose Player VALUE (name, hand, score — the derived PartialEq
used by the guard) equals the stored shooter's, including p itself, is left
unchanged, and every player whose value differs gains exactly 26 (with
pairwise-distinct player values, e.g. distinct names, this is the original
shooter-at-0, others-plus-26 outcome); in every other final state each
player's persistent score grows by exactly their own per-round trick-point
buffer. The bounds reflect the game loop invariant (all scores stay below
126, so the u8 additions cannot wrap). -/
theorem C1_score_phase (hps : HeartsPlayedState) (scores : Fin 4 → Nat)
    (players : Fin 4 → Player)
    (hbound : ∀ i, (players i).score + 26 < 256)
    (hsbound : ∀ i, (players i).score + scores i < 256) :
    (∀ p : Fin 4, hps = .heartsPlayedOne p →
        (∀ i : Fin 4, players i = players p →
            (score_phase hps scores players i).score = (players i).score)
          ∧ ∀ i : Fin 4, players i ≠ players p →
              (score_phase hps scores players i).score = (players i).score + 26)
    ∧ ((∀ p : Fin 4, hps ≠ .heartsPlayedOne p) →
        ∀ i : Fin 4,
          (score_phase hps scores players i).score = (players i).score + scores i) := by
  constructor
  · rintro p rfl
    constructor
    · intro i hip
      simp [score_phase, hip]
    · intro i hip
      simp [score_phase, hip, Player.add_score, Nat.mod_eq_of_lt (hbound i)]
  · intro hnot i
    cases hhps : hps with
    | heartsPlayedOne p => exact absurd hhps (hnot p)
    | noHeartsPlayed =>
      simp [score_phase, Player.add_score, Nat.mod_eq_of_lt (hsbound i)]
    | heartsPlayedMany =>
      simp [score_phase, Player.add_score, Nat.mod_eq_of_lt (hsbound i)]

/-- Witness for the amended C1: four distinctly named players on 30 points,
player 2 shot the moon; the shooter stays at 30 and the rest move to 56. -/
theorem C1_witness :
    (∀ i : Fin 4, ((fun j : Fin 4 => Player.mk (toString j.val) [] 30) i).score + 26 < 256)
    ∧ (∀ i : Fin 4,
        ((fun j : Fin 4 => Player.mk (toString j.val) [] 30) i).score + (fun _ => 6) i < 256)
    ∧ ((∀ p : Fin 4, HeartsPlayedState.heartsPlayedOne 2 = .heartsPlayedOne p →
          (∀ i : Fin 4, (fun j : Fin 4 => Player.mk (toString j.val) [] 30) i
                = (fun j : Fin 4 => Player.mk (toString j.val) [] 30) p →
              (score_phase (.heartsPlayedOne 2) (fun _ => 6)
                  (fun j => Player.mk (toString j.val) [] 30) i).score
                = ((fun j : Fin 4 => Player.mk (toString j.val) [] 30) i).score)
            ∧ ∀ i : Fin 4, (fun j : Fin 4 => Player.mk (toString j.val) [] 30) i
                ≠ (fun j : Fin 4 => Player.mk (toString j.val) [] 30) p →
                (score_phase (.heartsPlayedOne 2) (fun _ => 6)
                    (fun j => Player.mk (toString j.val) [] 30) i).score
                  = ((fun j : Fin 4 => Player.mk (toString j.val) [] 30) i).score + 26)
        ∧ ((∀ p : Fin 4, HeartsPlayedState.heartsPlayedOne 2 ≠ .heartsPlayedOne p) →
            ∀ i : Fin 4,
              (score_phase (.heartsPlayedOne 2) (fun _ => 6)
                  (fun j => Player.mk (toString j.val) [] 30) i).score
                = ((fun j : Fin 4 => Player.mk (toString j.val) [] 30) i).score
                    + (fun _ => 6) i)) :=
  ⟨by decide, by decide,
    C1_score_phase (.heartsPlayedOne 2) (fun _ => 6)
      (fun j => Player.mk (toString j.val) [] 30) (by decide) (by decide)⟩

end Hearts

namespace Hearts

/-- When a card has been led and hearts are already broken, the filter chain
of get_card_to_place reduces to the follow-suit filter alone. -/
lemma filtered_led_broken (hand : List Card) (fi : Nat) (fc : Card)
    (rest : List (Nat × Card)) (hps : HeartsPlayedState)
    (hnh : hps ≠ HeartsPlayedState.noHeartsPlayed) :
    filtered_card_options hand ((fi, fc) :: rest) false hps
      = sortCards (hand.filter fun c => c.suit == fc.suit) := by
  unfold filtered_card_options
  have h1 : (hand.filter fun card => !false || card.is_two_of_clubs) = hand :=
    List.filter_eq_self.mpr (fun a _ => by simp)
  rw [h1]
  have h3 : ∀ l : List Card,
      (l.filter fun card =>
        match hps with
        | HeartsPlayedState.noHeartsPlayed => !card.is_hearts
        | _ => true) = l := by
    intro l
    refine List.filter_eq_self.mpr (fun a _ => ?_)
    cases hps with
    | noHeartsPlayed => exact absurd rfl hnh
    | heartsPlayedOne p => rfl
    | heartsPlayedMany => rfl
  rw [h3]
  simp only [List.head?_cons]

/-- When a non-hearts card has been led while hearts are unbroken, the
hearts filter keeps every led-suit card, so the chain again reduces to the
follow-suit filter alone. -/
lemma filtered_led_not_hearts (hand : List Card) (fi : Nat) (fc : Card)
    (rest : List (Nat × Card)) (hfc : fc.suit ≠ Suit.Hearts) :
    filtered_card_options hand ((fi, fc) :: rest) false HeartsPlayedState.noHeartsPlayed
      = sortCards (hand.filter fun c => c.suit == fc.suit) := by
  unfold filtered_card_options
  have h1 : (hand.filter fun card => !false || card.is_two_of_clubs) = hand :=
    List.filter_eq_self.mpr (fun a _ => by simp)
  rw [h1]
  simp only [List.head?_cons]
  refine congrArg sortCards (List.filter_eq_self.mpr (fun a ha => ?_))
  have hs : a.suit = fc.suit := by
    have := (List.mem_filter.mp ha).2
    simpa using this
  simp [Card.is_hearts, hs, hfc]

/-- When a HEARTS card has been led while hearts are unbroken, the hearts
filter wipes out everything the follow-suit filter kept: the filtered list is
empty and the fallback will engage. -/
lemma filtered_led_hearts_unbroken (hand : List Card) (fi : Nat) (fc : Card)
    (rest : List (Nat × Card)) (hfc : fc.suit = Suit.Hearts) :
    filtered_card_options hand ((fi, fc) :: rest) false HeartsPlayedState.noHeartsPlayed
      = [] := by
  unfold filtered_card_options
  simp only [List.head?_cons]
  have hempty :
      (((hand.filter fun card => !false || card.is_two_of_clubs).filter
          fun card => card.suit == fc.suit).filter
        fun card => !card.is_hearts) = [] := by
    refine List.filter_eq_nil_iff.mpr (fun a ha => ?_)
    have hs : a.suit = fc.suit := by
      have := (List.mem_filter.mp ha).2
      simpa using this
    simp [Card.is_hearts, hs, hfc]
  rw [hempty]
  rfl

/-- C3 counterexample: table led with the Ten of Hearts, hearts unbroken,
hand = [Three of Hearts, Five of Clubs]. The player holds a card of the led
suit (the Three of Hearts), yet the presented choice set also contains the
Five of Clubs, whose suit differs from the led suit — so the choices are NOT
exactly the player's cards of the led suit. -/
theorem C3_counterexample :
    Card.mk Rank.Three Suit.Hearts ∈ [Card.mk .Three .Hearts, Card.mk .Five .Clubs]
    ∧ (Card.mk Rank.Three Suit.Hearts).suit = (Card.mk .Ten .Hearts).suit
    ∧ Card.mk Rank.Five Suit.Clubs ∈
        card_options [Card.mk .Three .Hearts, Card.mk .Five .Clubs]
          [(0, Card.mk .Ten .Hearts)] false .noHeartsPlayed
    ∧ (Card.mk Rank.Five Suit.Clubs).suit ≠ (Card.mk .Ten .Hearts).suit := by
  decide

/-- C3 amended: after a card is led, for a player holding at least one card
of the led suit, the presented choices are exactly the player's cards of the
led suit EXCEPT in one case: if the led suit is hearts and
HeartsPlayedState = NoHeartsPlayed, the (unconditional) hearts filter empties
the candidate list and the fallback presents the player's entire hand. -/
theorem C3_follow_suit_amended (hand : List Card) (table : List (Nat × Card))
    (fi : Nat) (fc : Card) (rest : List (Nat × Card)) (hps : HeartsPlayedState)
    (htable : table = (fi, fc) :: rest)
    (hholds : ∃ c ∈ hand, c.suit = fc.suit) :
    (hps = .noHeartsPlayed ∧ fc.suit = Suit.Hearts →
        List.Perm (card_options hand table false hps) hand)
    ∧ (hps ≠ .noHeartsPlayed ∨ fc.suit ≠ Suit.Hearts →
        List.Perm (card_options hand table false hps)
          (hand.filter fun c => c.suit == fc.suit)) := by
  subst htable
  obtain ⟨c, hc, hcs⟩ := hholds
  constructor
  · rintro ⟨rfl, hfc⟩
    have hnil := filtered_led_hearts_unbroken hand fi fc rest hfc
    unfold card_options
    rw [hnil]
    exact sortCards_perm hand
  · intro hcase
    have heq : filtered_card_options hand ((fi, fc) :: rest) false hps
        = sortCards (hand.filter fun d => d.suit == fc.suit) := by
      rcases hcase with h | h
      · exact filtered_led_broken hand fi fc rest hps h
      · cases hps with
        | noHeartsPlayed => exact filtered_led_not_hearts hand fi fc rest h
        | heartsPlayedOne p => exact filtered_led_broken hand fi fc rest _ (by simp)
        | heartsPlayedMany => exact filtered_led_broken hand fi fc rest _ (by simp)
    have hmemf : c ∈ hand.filter fun d => d.suit == fc.suit :=
      List.mem_filter.mpr ⟨hc, by simp [hcs]⟩
    have hmems : c ∈ sortCards (hand.filter fun d => d.suit == fc.suit) :=
      (sortCards_perm _).mem_iff.mpr hmemf
    have hne : sortCards (hand.filter fun d => d.suit == fc.suit) ≠ [] :=
      List.ne_nil_of_mem hmems
    unfold card_options
    rw [heq, if_neg (by simp [List.isEmpty_iff, hne])]
    exact sortCards_perm _

/-- Witness for the amended C3: clubs led against an unbroken round; the
player holding the Four of Clubs and the Ace of Spades is offered exactly
their clubs. -/
theorem C3_witness :
    (∃ c ∈ [Card.mk .Four .Clubs, Card.mk .Ace .Spades],
        c.suit = (Card.mk Rank.Ten Suit.Clubs).suit)
    ∧ ((HeartsPlayedState.noHeartsPlayed = .noHeartsPlayed
          ∧ (Card.mk Rank.Ten Suit.Clubs).suit = Suit.Hearts →
        List.Perm (card_options [Card.mk .Four .Clubs, Card.mk .Ace .Spades]
            [(2, Card.mk Rank.Ten Suit.Clubs)] false .noHeartsPlayed)
          [Card.mk .Four .Clubs, Card.mk .Ace .Spades])
      ∧ (HeartsPlayedState.noHeartsPlayed ≠ .noHeartsPlayed
          ∨ (Card.mk Rank.Ten Suit.Clubs).suit ≠ Suit.Hearts →
        List.Perm (card_options [Card.mk .Four .Clubs, Card.mk .Ace .Spades]
            [(2, Card.mk Rank.Ten Suit.Clubs)] false .noHeartsPlayed)
          ([Card.mk .Four .Clubs, Card.mk .Ace .Spades].filter
            fun c => c.suit == (Card.mk Rank.Ten Suit.Clubs).suit))) :=
  ⟨⟨Card.mk .Four .Clubs, by decide, by decide⟩,
    C3_follow_suit_amended _ _ 2 (Card.mk Rank.Ten Suit.Clubs) [] _ rfl
      ⟨Card.mk .Four .Clubs, by decide, by decide⟩⟩

end Hearts

namespace Hearts

/-- Player::pass only removes cards: the kept hand is a sublist of the old
hand. -/
lemma pass_hand_sublist (p : Player) (choices : List Card) :
    ((p.pass choices).2).hand.Sublist p.hand := by
  unfold Player.pass
  simp only [List.partition_eq_filter_filter]
  exact List.filter_sublist p.hand

/-- The collection loop of pass_cards never adds a card to any hand: every
hand of the resulting player state is a sublist of the corresponding input
hand, whether or not the loop ran to completion. -/
lemma collect_passes_hand_sublist (sel : Fin 4 → Option (List Card)) :
    ∀ (pairs : List (Fin 4 × Fin 4)) (players : Fin 4 → Player)
      (acc : List (Fin 4 × List Card)) (i : Fin 4),
      ((collect_passes sel pairs players acc).1 i).hand.Sublist ((players i).hand) := by
  intro pairs
  induction pairs with
  | nil =>
    intro players acc i
    exact List.Sublist.refl _
  | cons ab rest ih =>
    intro players acc i
    obtain ⟨a, b⟩ := ab
    cases hsa : sel a with
    | none =>
      simp only [collect_passes, hsa]
      exact List.Sublist.refl _
    | some choices =>
      simp only [collect_passes, hsa]
      refine (ih (Function.update players a ((players a).pass choices).2)
        (acc ++ [(b, ((players a).pass choices).1)]) i).trans ?_
      by_cases hia : i = a
      · subst hia
        rw [Function.update_same]
        exact pass_hand_sublist _ _
      · rw [Function.update_noteq hia]

/-- C4 counterexample: passing order Right, the collaborator answers the
first pair and fails on the second. pass_cards reports PassError, yet player
0's hand has already lost the Two of Clubs — the hands are NOT all exactly as
they were after dealing. -/
theorem C4_counterexample :
    (pass_cards
        (fun i => if i = 0 then some [Card.mk .Two .Clubs] else none)
        (fun _ => Player.mk "" [Card.mk .Two .Clubs, Card.mk .Five .Clubs] 0)
        .Right).2 = false
    ∧ ((pass_cards
          (fun i => if i = 0 then some [Card.mk .Two .Clubs] else none)
          (fun _ => Player.mk "" [Card.mk .Two .Clubs, Card.mk .Five .Clubs] 0)
          .Right).1 0).hand
        ≠ ((fun _ => Player.mk "" [Card.mk .Two .Clubs, Card.mk .Five .Clubs] 0)
            (0 : Fin 4)).hand := by
  decide

/-- C4 amended: deliveries (Player::take) really are deferred until all four
selections are collected, so when any get_cards_to_pass call fails, no hand
has gained a single card — every player's hand is a sublist of its post-deal
hand. (Hands of givers from pairs collected before the failure, however, have
already had their chosen cards removed, as the counterexample shows.) -/
theorem C4_no_partial_delivery (sel : Fin 4 → Option (List Card))
    (players : Fin 4 → Player) (order : PassingOrder)
    (hfail : (pass_cards sel players order).2 = false) :
    ∀ i : Fin 4, ((pass_cards sel players order).1 i).hand.Sublist ((players i).hand) := by
  intro i
  cases ho : passing_indices order with
  | none =>
    unfold pass_cards at hfail
    rw [ho] at hfail
    exact Bool.noConfusion hfail
  | some pairs =>
    cases hc : collect_passes sel pairs players [] with
    | mk players1 res =>
      obtain ⟨collected, ok⟩ := res
      cases ok with
      | true =>
        have heq : pass_cards sel players order = (apply_passes collected players1, true) := by
          unfold pass_cards
          rw [ho]
          show (match collect_passes sel pairs players [] with
            | (players1, collected, true) => (apply_passes collected players1, true)
            | (players1, _, false) => (players1, false)) = _
          rw [hc]
        rw [heq] at hfail
        exact Bool.noConfusion hfail
      | false =>
        have heq : pass_cards sel players order = (players1, false) := by
          unfold pass_cards
          rw [ho]
          show (match collect_passes sel pairs players [] with
            | (players1, collected, true) => (apply_passes collected players1, true)
            | (players1, _, false) => (players1, false)) = _
          rw [hc]
        rw [heq]
        have hsub := collect_passes_hand_sublist sel pairs players [] i
        rw [hc] at hsub
        exact hsub

/-- Witness for the amended C4, reusing the concrete failing scenario. -/
theorem C4_witness :
    (pass_cards
        (fun i => if i = 0 then some [Card.mk .Two .Clubs] else none)
        (fun _ => Player.mk "" [Card.mk .Two .Clubs, Card.mk .Five .Clubs] 0)
        .Right).2 = false
    ∧ ∀ i : Fin 4,
        ((pass_cards
            (fun i => if i = 0 then some [Card.mk .Two .Clubs] else none)
            (fun _ => Player.mk "" [Card.mk .Two .Clubs, Card.mk .Five .Clubs] 0)
            .Right).1 i).hand.Sublist
          (((fun _ => Player.mk "" [Card.mk .Two .Clubs, Card.mk .Five .Clubs] 0)
              i).hand) :=
  ⟨by decide,
    C4_no_partial_delivery
      (fun i => if i = 0 then some [Card.mk .Two .Clubs] else none)
      (fun _ => Player.mk "" [Card.mk .Two .Clubs, Card.mk .Five .Clubs] 0)
      .Right (by decide)⟩

end Hearts

namespace Hearts

/-- The four contiguous 13-card slices of a 52-card list reassemble to the
whole list. -/
lemma deal_concat (shuffled : List Card) (h : shuffled.length = 52) :
    dealSlice shuffled 0
        ++ (dealSlice shuffled 1 ++ (dealSlice shuffled 2 ++ dealSlice shuffled 3))
      = shuffled := by
  have h0 : dealSlice shuffled 0 = shuffled.take 13 := rfl
  have h1 : dealSlice shuffled 1 = (shuffled.drop 13).take 13 := rfl
  have h2 : dealSlice shuffled 2 = (shuffled.drop 26).take 13 := rfl
  have h3 : dealSlice shuffled 3 = shuffled.drop 39 := by
    have hlen : (shuffled.drop 39).length ≤ 13 := by
      rw [List.length_drop, h]
    have hv : dealSlice shuffled 3 = (shuffled.drop 39).take 13 := rfl
    rw [hv, List.take_of_length_le hlen]
  rw [h0, h1, h2, h3]
  have d13 : (shuffled.drop 13).drop 13 = shuffled.drop 26 := by
    rw [List.drop_drop]
  have d26 : (shuffled.drop 26).drop 13 = shuffled.drop 39 := by
    rw [List.drop_drop]
  conv_rhs => rw [← List.take_append_drop 13 shuffled]
  congr 1
  conv_rhs => rw [← List.take_append_drop 13 (shuffled.drop 13), d13]
  congr 1
  conv_rhs => rw [← List.take_append_drop 13 (shuffled.drop 26), d26]

end Hearts

namespace Hearts

/-- C5: for every shuffle outcome (any permutation of the freshly built
52-card deck), dealing to four players with empty hands yields four hands of
13 cards each, pairwise disjoint, whose union is the full Rank × Suit
product. -/
theorem C5_deal_partition (shuffled : List Card) (players : Fin 4 → Player)
    (hperm : List.Perm shuffled Deck.new)
    (hempty : ∀ i, (players i).hand = []) :
    (∀ i, ((Deck.deal shuffled players i).hand).length = 13)
    ∧ (∀ i j : Fin 4, i ≠ j → ∀ c : Card,
        c ∈ (Deck.deal shuffled players i).hand →
          c ∉ (Deck.deal shuffled players j).hand)
    ∧ List.Perm
        ((Deck.deal shuffled players 0).hand ++ (Deck.deal shuffled players 1).hand
          ++ (Deck.deal shuffled players 2).hand ++ (Deck.deal shuffled players 3).hand)
        Deck.new := by
  have hlen : shuffled.length = 52 := by
    rw [hperm.length_eq]
    decide
  have hhand : ∀ i, (Deck.deal shuffled players i).hand = dealSlice shuffled i := by
    intro i
    simp [Deck.deal, Player.take, hempty i]
  have hconcat := deal_concat shuffled hlen
  have hnodup : shuffled.Nodup := hperm.nodup_iff.mpr (by decide)
  have hnd : (dealSlice shuffled 0
      ++ (dealSlice shuffled 1 ++ (dealSlice shuffled 2 ++ dealSlice shuffled 3))).Nodup := by
    rw [hconcat]
    exact hnodup
  obtain ⟨hn0, hn123, hd0⟩ := List.nodup_append.mp hnd
  obtain ⟨hn1, hn23, hd1⟩ := List.nodup_append.mp hn123
  obtain ⟨hn2, hn3, hd2⟩ := List.nodup_append.mp hn23
  have hd0s := List.disjoint_append_right.mp hd0
  have hd01 := hd0s.1
  have hd0s2 := List.disjoint_append_right.mp hd0s.2
  have hd02 := hd0s2.1
  have hd03 := hd0s2.2
  have hd1s := List.disjoint_append_right.mp hd1
  have hd12 := hd1s.1
  have hd13 := hd1s.2
  refine ⟨?_, ?_, ?_⟩
  · intro i
    rw [hhand i]
    fin_cases i <;>
      simp [dealSlice, List.length_take, List.length_drop, hlen]
  · intro i j hij c hci hcj
    rw [hhand i] at hci
    rw [hhand j] at hcj
    fin_cases i <;> fin_cases j <;>
      first
        | exact absurd rfl hij
        | exact hd01 hci hcj
        | exact hd01.symm hci hcj
        | exact hd02 hci hcj
        | exact hd02.symm hci hcj
        | exact hd03 hci hcj
        | exact hd03.symm hci hcj
        | exact hd12 hci hcj
        | exact hd12.symm hci hcj
        | exact hd13 hci hcj
        | exact hd13.symm hci hcj
        | exact hd2 hci hcj
        | exact hd2.symm hci hcj
  · rw [hhand 0, hhand 1, hhand 2, hhand 3]
    have hassoc : dealSlice shuffled 0 ++ dealSlice shuffled 1
        ++ dealSlice shuffled 2 ++ dealSlice shuffled 3
        = dealSlice shuffled 0
            ++ (dealSlice shuffled 1 ++ (dealSlice shuffled 2 ++ dealSlice shuffled 3)) := by
      rw [List.append_assoc, List.append_assoc]
    rw [hassoc, hconcat]
    exact hperm

/-- Witness for C5: the identity shuffle dealt to four fresh players. -/
theorem C5_witness :
    List.Perm Deck.new Deck.new
    ∧ (∀ i : Fin 4, (((fun _ => Player.mk "" [] 0) : Fin 4 → Player) i).hand = [])
    ∧ ((∀ i, ((Deck.deal Deck.new (fun _ => Player.mk "" [] 0) i).hand).length = 13)
        ∧ (∀ i j : Fin 4, i ≠ j → ∀ c : Card,
            c ∈ (Deck.deal Deck.new (fun _ => Player.mk "" [] 0) i).hand →
              c ∉ (Deck.deal Deck.new (fun _ => Player.mk "" [] 0) j).hand)
        ∧ List.Perm
            ((Deck.deal Deck.new (fun _ => Player.mk "" [] 0) 0).hand
              ++ (Deck.deal Deck.new (fun _ => Player.mk "" [] 0) 1).hand
              ++ (Deck.deal Deck.new (fun _ => Player.mk "" [] 0) 2).hand
              ++ (Deck.deal Deck.new (fun _ => Player.mk "" [] 0) 3).hand)
            Deck.new) :=
  ⟨List.Perm.refl _, by decide,
    C5_deal_partition Deck.new (fun _ => Player.mk "" [] 0)
      (List.Perm.refl _) (by decide)⟩

end Hearts
